import Mathlib

/-!
Verification of the bunting-agents document-processing pipeline.

This file gives a shallow embedding, in Lean 4, of the pure core of the
repository's three agents:

* `agents/table_parser_agent.py` — plain-text table detection and parsing,
  cell type inference, and table-structure validation/cleaning;
* `agents/document_ocr_agent.py` — the per-block confidence aggregation of
  both OCR backends, the layout (column) detection scan, and the image
  preprocessing pipeline (external cv2/PIL operations are modelled as
  abstract, possibly-failing functions);
* `agents/document_processor.py` — the orchestrator's `process` method,
  including its result cache.

Python strings are modelled as Lean `String`/`List Char` (whitespace and
digit classes are modelled over their ASCII members), Python floats as `ℚ`,
Python dicts keyed by strings as insertion-ordered association lists, and
Python exceptions as `Except`.  Each definition mirrors one Python function
and is named after it.
-/

set_option autoImplicit false

namespace BuntingAgents

/-! ### Python string primitives -/

/-- Membership in Python's `\s` / `str.strip` whitespace class (ASCII part:
space, tab, newline, carriage return, vertical tab, form feed). -/
def isPySpace (c : Char) : Bool :=
  c = ' ' || c = '\t' || c = '\n' || c = '\r' || c = Char.ofNat 11 || c = Char.ofNat 12

/-- `str.strip()` on a character list: drop whitespace from both ends. -/
def stripChars (l : List Char) : List Char :=
  ((l.dropWhile isPySpace).reverse.dropWhile isPySpace).reverse

/-- `str.strip()` on a `String`. -/
def pyStrip (s : String) : String :=
  ⟨stripChars s.data⟩

/-- `str.lower()` (ASCII case folding). -/
def pyLower (s : String) : String :=
  ⟨s.data.map Char.toLower⟩

/-- `str.split(sep)` for a single-character separator, as in Python:
`splitChar sep "a|b" = ["a","b"]`, `splitChar sep "" = [""]`. -/
def splitChar (sep : Char) : List Char → List (List Char)
  | [] => [[]]
  | c :: t =>
    let r := splitChar sep t
    if c = sep then [] :: r
    else
      match r with
      | [] => [[c]]
      | x :: xs => (c :: x) :: xs

/-- `line.count(ch)` for a single character. -/
def countChar (ch : Char) (l : List Char) : Nat :=
  l.count ch

/-- Number of matches of `re.findall(r'  +', line)`: maximal runs of at
least two consecutive spaces. -/
def countSpaceRuns : List Char → Nat
  | [] => 0
  | [_] => 0
  | a :: b :: t =>
    if a = ' ' && b = ' ' then
      1 + countSpaceRuns ((b :: t).dropWhile (fun c => c = ' '))
    else
      countSpaceRuns (b :: t)
termination_by l => l.length
decreasing_by
  · simp only [List.length_cons]
    have h : ((b :: t).dropWhile fun c => c = ' ').length ≤ (b :: t).length :=
      (List.dropWhile_sublist _).length_le
    simp only [List.length_cons] at h
    omega
  · simp only [List.length_cons]; omega

/-- Whether `re.search(r'  +', line)` finds a match: two consecutive spaces
occur somewhere. -/
def hasDoubleSpace : List Char → Bool
  | a :: b :: t => (a = ' ' && b = ' ') || hasDoubleSpace (b :: t)
  | _ => false

/-- `re.split(r'  +', line)`: split on maximal runs of at least two spaces. -/
def splitMultiSpace : List Char → List (List Char)
  | [] => [[]]
  | a :: t =>
    if a = ' ' && t.head? = some ' ' then
      [] :: splitMultiSpace (t.dropWhile (fun c => c = ' '))
    else
      match splitMultiSpace t with
      | [] => [[a]]
      | x :: xs => (a :: x) :: xs
termination_by l => l.length
decreasing_by
  · simp only [List.length_cons]
    have h : (t.dropWhile fun c => c = ' ').length ≤ t.length :=
      (List.dropWhile_sublist _).length_le
    omega
  · simp only [List.length_cons]; omega

/-! ### Decimal rendering of naturals (Python `str(n)` for `n : Nat`)

Defined with explicit fuel so that it reduces by `rfl`/`decide`. -/

/-- Fuelled decimal digit-list construction (most significant digit first). -/
def decReprAux : Nat → Nat → List Char
  | 0, _ => []
  | fuel + 1, n =>
    if n < 10 then [Nat.digitChar n]
    else decReprAux fuel (n / 10) ++ [Nat.digitChar (n % 10)]

/-- Decimal digit list of `n`, most significant digit first. -/
def decRepr (n : Nat) : List Char :=
  decReprAux (n + 1) n

/-- Python `str(n)` for a natural number. -/
def decStr (n : Nat) : String :=
  ⟨decRepr n⟩

/-- Numeric value of a decimal digit list (left fold, base 10). -/
def decVal (l : List Char) : Nat :=
  l.foldl (fun a c => a * 10 + (c.toNat - 48)) 0

/-! ### `table_parser_agent.py`: text-table detection -/

/-- `TableParserAgent._detect_delimiter`: first delimiter type found in the
line, priority pipe > tab > multi-space > comma. -/
def detect_delimiter (line : String) : String :=
  if countChar '|' line.data > 0 then "|"
  else if countChar '\t' line.data > 0 then "\t"
  else if hasDoubleSpace line.data then "  "
  else ","

/-- The accumulation condition of `_detect_text_tables`: a line is treated as
part of a table when `pipe_count > 1 or tab_count > 1 or multi_space_count > 2`. -/
def isTableLine (line : String) : Bool :=
  countChar '|' line.data > 1 || countChar '\t' line.data > 1
    || countSpaceRuns line.data > 2

/-- Join accumulated lines back together, as `'\n'.join(current_table)`. -/
def joinLines (ls : List String) : String :=
  String.intercalate "\n" ls

/-- Loop body of `TableParserAgent._detect_text_tables`: group consecutive
delimiter-bearing lines, keeping groups of more than one line. -/
def detectTextTablesAux (cur : List String) : List String → List String
  | [] => if cur.length > 1 then [joinLines cur] else []
  | l :: rest =>
    if isTableLine l then detectTextTablesAux (cur ++ [l]) rest
    else (if cur.length > 1 then [joinLines cur] else []) ++ detectTextTablesAux [] rest

/-- `TableParserAgent._detect_text_tables` (on text content). -/
def detect_text_tables (text : String) : List String :=
  detectTextTablesAux [] ((splitChar '\n' text.data).map fun l => (⟨l⟩ : String))

/-- A line matching `re.match(r'^[\|\-\+\s]+$', line)`: nonempty and made only
of pipes, dashes, pluses and whitespace (table separator lines). -/
def isSeparatorLine (line : String) : Bool :=
  line.data ≠ [] && line.data.all fun c => c = '|' || c = '-' || c = '+' || isPySpace c

/-- `line.split('|')` with each part as a `String`. -/
def pipeSplit (line : String) : List String :=
  (splitChar '|' line.data).map fun l => (⟨l⟩ : String)

/-- The pipe branch of the cell split in `_parse_text_table`:
`[cell.strip() for cell in line.split('|') if cell.strip()]` — stripped cells
with empty (or whitespace-only) cells discarded. -/
def pipeCells (line : String) : List String :=
  ((pipeSplit line).map pyStrip).filter fun s => s ≠ ""

/-- Cell split of `_parse_text_table` for each delimiter.  Note that the
final branch (used both for multi-space and comma delimiters) splits on runs
of two or more spaces, exactly as the Python code does. -/
def splitCells (delimiter : String) (line : String) : List String :=
  if delimiter = "|" then pipeCells line
  else if delimiter = "\t" then
    (splitChar '\t' line.data).map fun l => (⟨stripChars l⟩ : String)
  else
    (splitMultiSpace line.data).map fun l => (⟨stripChars l⟩ : String)

/-- Key chosen for the `j`-th cell when building a row dict:
`headers[j]` when in range, otherwise `f'Column_{j+1}'`. -/
def keyFor (headers : List String) (j : Nat) : String :=
  if h : j < headers.length then headers.get ⟨j, h⟩
  else "Column_" ++ decStr (j + 1)

/-- Python `dict` assignment `d[k] = v` on an insertion-ordered association
list: replace the value in place if the key exists, else append. -/
def dictInsert (r : List (String × String)) (k v : String) : List (String × String) :=
  if r.any fun kv => kv.1 = k then
    r.map fun kv => if kv.1 = k then (k, v) else kv
  else r ++ [(k, v)]

/-- The (key, value) pairs assigned by the row-building loop of
`_parse_text_table`, in iteration order. -/
def rowPairs (headers : List String) (cells : List String) : List (String × String) :=
  cells.enum.map fun jv => (keyFor headers jv.1, jv.2)

/-- Row dict built by `_parse_text_table` for one data line. -/
def buildRow (headers : List String) (cells : List String) : List (String × String) :=
  (rowPairs headers cells).foldl (fun r kv => dictInsert r kv.1 kv.2) []

/-- One parsed table (the dict returned by `_parse_text_table`). -/
structure TableT where
  data : List (List (String × String))
  headers : List String
  rows : Nat
  columns : Nat
  delimiter : String
deriving DecidableEq, Repr

/-- The line loop of `_parse_text_table`: skip separator lines, make the first
non-separator line's cells the headers, build a row dict from every later
line. -/
def parseTextTableAux (delimiter : String) :
    List String → List String → List (List (String × String)) →
      List (List (String × String)) × List String
  | [], headers, data => (data, headers)
  | line :: rest, headers, data =>
    if isSeparatorLine line then parseTextTableAux delimiter rest headers data
    else
      let cells := splitCells delimiter line
      if headers = [] then parseTextTableAux delimiter rest cells data
      else parseTextTableAux delimiter rest headers (data ++ [buildRow headers cells])

/-- `TableParserAgent._parse_text_table`: returns `none` where the Python
code returns `None` (no lines, or no data rows). -/
def parse_text_table (tableText : String) : Option TableT :=
  let lines := (splitChar '\n' (pyStrip tableText).data).map fun l => (⟨l⟩ : String)
  match lines with
  | [] => none
  | line0 :: _ =>
    let delimiter := detect_delimiter line0
    let pr := parseTextTableAux delimiter lines [] []
    if pr.1 = [] then none
    else some
      { data := pr.1
        headers := pr.2
        rows := pr.1.length
        columns := pr.2.length
        delimiter := delimiter }

/-- `TableParserAgent._parse_text_tables` restricted to text content: detect
candidate table blocks, parse each, keep the successes. -/
def parse_text_tables (text : String) : List TableT :=
  (detect_text_tables text).filterMap parse_text_table

/-! ### `table_parser_agent.py`: cell type inference

`_detect_data_type` first tries Python's `float()` on the comma-stripped
value; the recogniser below follows CPython's float-literal grammar
(optional whitespace and sign, `inf`/`infinity`/`nan` case-insensitively, or
a decimal mantissa with optional fraction and exponent, with PEP-515
underscores allowed only between digits). -/

/-- Consume an optional leading `+`/`-` sign. -/
def parseSign (l : List Char) : List Char :=
  match l with
  | c :: t => if c = '+' || c = '-' then t else l
  | [] => []

/-- After an initial digit, consume `(('_')? digit)*`; a `'_'` not followed
by a digit is left in place (and will make the whole parse fail). -/
def digitTail : Nat → List Char → List Char
  | 0, l => l
  | _ + 1, [] => []
  | fuel + 1, c :: t =>
    if c.isDigit then digitTail fuel t
    else if c = '_' then
      match t with
      | d :: t2 => if d.isDigit then digitTail fuel t2 else c :: t
      | [] => [c]
    else c :: t

/-- Parse `digit (('_')? digit)*`; `some rest` on success. -/
def parseDigits (l : List Char) : Option (List Char) :=
  match l with
  | c :: t => if c.isDigit then some (digitTail t.length t) else none
  | [] => none

/-- Parse a decimal mantissa with optional fraction and optional exponent. -/
def parseNumber (l : List Char) : Option (List Char) :=
  let afterMantissa : Option (List Char) :=
    match parseDigits l with
    | some r =>
      match r with
      | '.' :: t =>
        some (match parseDigits t with
              | some r2 => r2
              | none => t)
      | _ => some r
    | none =>
      match l with
      | '.' :: t => parseDigits t
      | _ => none
  match afterMantissa with
  | none => none
  | some r =>
    match r with
    | c :: t => if c = 'e' || c = 'E' then parseDigits (parseSign t) else some r
    | [] => some []

/-- Whether Python's `float(value)` succeeds on this character list. -/
def pyFloatOk (l : List Char) : Bool :=
  let l1 := parseSign (stripChars l)
  (pyLower ⟨l1⟩ = "inf" || pyLower ⟨l1⟩ = "infinity" || pyLower ⟨l1⟩ = "nan")
    || parseNumber l1 = some []

/-- Token of a simple character pattern: a digit, or a literal character. -/
inductive PTok where
  | dig : PTok
  | lit : Char → PTok

/-- Prefix matching of a fixed-shape pattern, as `re.match` does for the
regexes `\d{4}-\d{2}-\d{2}` etc. -/
def matchPat : List Char → List PTok → Bool
  | _, [] => true
  | [], _ :: _ => false
  | c :: t, p :: ps =>
    (match p with
     | PTok.dig => c.isDigit
     | PTok.lit x => c = x) && matchPat t ps

/-- The three date patterns of `_detect_data_type` (prefix-matched). -/
def matchDate (l : List Char) : Bool :=
  matchPat l [PTok.dig, PTok.dig, PTok.dig, PTok.dig, PTok.lit '-',
              PTok.dig, PTok.dig, PTok.lit '-', PTok.dig, PTok.dig]
    || matchPat l [PTok.dig, PTok.dig, PTok.lit '/', PTok.dig, PTok.dig,
                   PTok.lit '/', PTok.dig, PTok.dig, PTok.dig, PTok.dig]
    || matchPat l [PTok.dig, PTok.dig, PTok.lit '-', PTok.dig, PTok.dig,
                   PTok.lit '-', PTok.dig, PTok.dig, PTok.dig, PTok.dig]

/-- `re.match(r'[\$€£¥]\s*[\d,]+\.?\d*', value)`: since everything after
`[\d,]+` may be empty, a match exists exactly when a currency symbol is
followed (after optional whitespace) by a digit or comma. -/
def matchCurrency (l : List Char) : Bool :=
  match l with
  | c :: t =>
    (c = '$' || c = '€' || c = '£' || c = '¥')
      && (match t.dropWhile isPySpace with
          | d :: _ => d.isDigit || d = ','
          | [] => false)
  | [] => false

/-- `re.match(r'[\d,]+\.?\d*\s*%', value)` via maximal-munch scanning, which
coincides with the backtracking semantics for this pattern. -/
def matchPercent (l : List Char) : Bool :=
  let sp := l.span fun c => c.isDigit || c = ','
  if sp.1 = [] then false
  else
    let r2 := match sp.2 with
              | '.' :: t => t
              | r => r
    let r3 := (r2.dropWhile Char.isDigit).dropWhile isPySpace
    match r3 with
    | '%' :: _ => true
    | _ => false

/-- `TableParserAgent._detect_data_type`: classify a cell string. -/
def detect_data_type (value : String) : String :=
  let v := pyStrip value
  if v.data = [] then "empty"
  else if pyFloatOk (v.data.filter fun c => c ≠ ',') then "numeric"
  else if matchDate v.data then "date"
  else if pyLower v = "true" || pyLower v = "false" || pyLower v = "yes"
          || pyLower v = "no" then "boolean"
  else if matchCurrency v.data then "currency"
  else if matchPercent v.data then "percentage"
  else "text"

/-- Classifier written from the specification's words: test, in priority
order, empty string; parses as a float after stripping commas; matches one of
the three date shapes; case-insensitively a boolean literal; leading currency
symbol; trailing percent; otherwise text. -/
def specDataType (value : String) : String :=
  let v := pyStrip value
  if v.data = [] then "empty"
  else if pyFloatOk (v.data.filter fun c => c ≠ ',') then "numeric"
  else if matchDate v.data then "date"
  else if pyLower v = "true" || pyLower v = "false" || pyLower v = "yes"
          || pyLower v = "no" then "boolean"
  else if matchCurrency v.data then "currency"
  else if matchPercent v.data then "percentage"
  else "text"

/-! ### `table_parser_agent.py`: validation and header cleaning -/

/-- `mkHdr h c` is the header emitted for an occurrence of `h` preceded by
`c` earlier occurrences: the bare name first, then `h_2`, `h_3`, …. -/
def mkHdr (h : String) (c : Nat) : String :=
  if c = 0 then h else h ++ "_" ++ decStr (c + 1)

/-- The header de-duplication loop of `validate_table_structure`, carrying
the `seen` occurrence counts. -/
def uniqueHeadersAux (seen : String → Nat) : List String → List String
  | [] => []
  | h :: t =>
    mkHdr h (seen h) :: uniqueHeadersAux (fun x => if x = h then seen h + 1 else seen x) t

/-- The `unique_headers` list computed by `validate_table_structure`. -/
def uniqueHeaders (hs : List String) : List String :=
  uniqueHeadersAux (fun _ => 0) hs

/-- The fields of a table dict that `validate_table_structure` reads: its
headers and its data rows (rows as insertion-ordered string dicts). -/
structure TableV where
  headers : List String
  data : List (List (String × String))
deriving DecidableEq, Repr

/-- The validation dict returned by `validate_table_structure`. -/
structure ValidationT where
  is_valid : Bool
  issues : List String
  cleaned_table : Option TableV
deriving DecidableEq, Repr

/-- `TableParserAgent.validate_table_structure`.  Note that only the missing
`data` check clears `is_valid`; the other three checks merely append to
`issues`.  `len(set(xs))` is modelled by `List.dedup`. -/
def validate_table_structure (t : TableV) : ValidationT :=
  if t.data = [] then
    { is_valid := false, issues := ["No data found"], cleaned_table := none }
  else
    let rowLengths := t.data.map List.length
    let i1 : List String :=
      if 1 < rowLengths.dedup.length then ["Inconsistent column count across rows"] else []
    let i2 : List String :=
      if t.headers = [] || t.headers.any (fun h => h = "") then
        ["Missing or empty headers"] else []
    let i3 : List String :=
      if t.headers.length ≠ t.headers.dedup.length then ["Duplicate headers found"] else []
    let cleaned : TableV :=
      if t.headers = [] then t else { t with headers := uniqueHeaders t.headers }
    { is_valid := true, issues := i1 ++ i2 ++ i3, cleaned_table := some cleaned }

/-! ### `document_ocr_agent.py`: OCR confidence aggregation

Confidences are modelled in `ℚ`.  A Tesseract data row carries an integer
confidence (already on the 0–100 scale); an EasyOCR item carries a raw
confidence on the 0–1 scale. -/

/-- One row of `pytesseract.image_to_data` output. -/
structure TessItem where
  conf : Int
  text : String
  left : Int
  top : Int
  width : Int
  height : Int
  level : Int

/-- A retained text block of the OCR result. -/
structure BlockT where
  text : String
  confidence : ℚ
  bx : Int
  by' : Int
  bw : Int
  bh : Int
  level : Int
deriving DecidableEq

/-- The OCR result dict (`text`, `blocks`, `confidence`, `errors`). -/
structure OcrResult where
  text : String
  blocks : List BlockT
  confidence : ℚ
  errors : List String

/-- Loop body of `_ocr_with_tesseract`: keep a row whose integer confidence
is positive, whose stripped text is nonempty, and whose confidence is at
least the threshold; collect the block and its confidence in lockstep. -/
def tessStep (threshold : ℚ) (acc : List BlockT × List ℚ) (it : TessItem) :
    List BlockT × List ℚ :=
  if it.conf > 0 then
    let t := pyStrip it.text
    if t ≠ "" then
      let b : BlockT :=
        { text := t, confidence := (it.conf : ℚ), bx := it.left, by' := it.top,
          bw := it.width, bh := it.height, level := it.level }
      if b.confidence ≥ threshold then (acc.1 ++ [b], acc.2 ++ [b.confidence])
      else acc
    else acc
  else acc

/-- `DocumentOCRAgent._ocr_with_tesseract` (successful path), parametrised by
the text and data rows the library returns.  `np.mean` of an empty list is
replaced by the code's own `if confidences else 0` guard. -/
def ocr_with_tesseract (fullText : String) (items : List TessItem)
    (threshold : ℚ) : OcrResult :=
  let bc := items.foldl (tessStep threshold) ([], [])
  { text := fullText
    blocks := bc.1
    confidence := if bc.2 = [] then 0 else bc.2.sum / (bc.2.length : ℚ)
    errors := [] }

/-- One detection returned by `easyocr.Reader.readtext`: the bounding-box
corner points, the text, and the raw confidence on the 0–1 scale. -/
structure EasyItem where
  points : List (ℚ × ℚ)
  text : String
  conf : ℚ

/-- Python `int()` on a rational: truncation toward zero. -/
def pyInt (q : ℚ) : Int :=
  if 0 ≤ q then q.floor else -((-q).floor)

/-- An EasyOCR block (bbox reduced to x/y/width/height as in the code). -/
structure EasyBlock where
  text : String
  confidence : ℚ
  bx : Int
  by' : Int
  bw : Int
  bh : Int
deriving DecidableEq

/-- The EasyOCR result dict. -/
structure EasyResult where
  text : String
  blocks : List EasyBlock
  confidence : ℚ
  errors : List String

/-- Minimum of a list of rationals with a default for the empty list
(`min()` of a nonempty Python list). -/
def listMin (d : ℚ) (l : List ℚ) : ℚ :=
  l.foldl min d

/-- Maximum of a list of rationals with a default. -/
def listMax (d : ℚ) (l : List ℚ) : ℚ :=
  l.foldl max d

/-- Loop body of `_ocr_with_easyocr`: keep a detection whose raw confidence
is at least the threshold; the stored block confidence is `conf * 100` while
the running `confidences` list keeps the raw value. -/
def easyStep (threshold : ℚ) (acc : List String × List EasyBlock × List ℚ)
    (it : EasyItem) : List String × List EasyBlock × List ℚ :=
  if it.conf ≥ threshold then
    let xs := it.points.map Prod.fst
    let ys := it.points.map Prod.snd
    let b : EasyBlock :=
      { text := it.text
        confidence := it.conf * 100
        bx := pyInt (listMin 0 xs)
        by' := pyInt (listMin 0 ys)
        bw := pyInt (listMax 0 xs - listMin 0 xs)
        bh := pyInt (listMax 0 ys - listMin 0 ys) }
    (acc.1 ++ [it.text], acc.2.1 ++ [b], acc.2.2 ++ [it.conf])
  else acc

/-- `DocumentOCRAgent._ocr_with_easyocr` (successful path), parametrised by
the detections the library returns.  The document confidence is
`np.mean(confidences) * 100` over the raw confidences. -/
def ocr_with_easyocr (items : List EasyItem) (threshold : ℚ) : EasyResult :=
  let tbc := items.foldl (easyStep threshold) ([], [], [])
  { text := String.intercalate " " tbc.1
    blocks := tbc.2.1
    confidence := if tbc.2.2 = [] then 0 else (tbc.2.2.sum / (tbc.2.2.length : ℚ)) * 100
    errors := [] }

/-! ### `document_ocr_agent.py`: layout detection -/

/-- A detected text region of the layout. -/
structure RegionT where
  rx : Int
  ry : Int
  rw : Int
  rh : Int
  area : Int
deriving DecidableEq, Repr

/-- The layout dict (`regions`, `columns`, `orientation`). -/
structure LayoutT where
  regions : List RegionT
  columns : Nat
  orientation : String
deriving DecidableEq, Repr

/-- The stages of `_detect_layout` that call into cv2/numpy, modelled as
data: `none` at a stage means that stage raised.  `grayShape` is the `(h, w)`
shape of the grayscale image, `proj` the vertical projection, `rects` the
bounding rectangles of the detected contours. -/
structure LayoutInput where
  cv2Available : Bool
  grayShape : Option (Nat × Nat)
  proj : Option (List ℚ)
  rects : Option (List (Int × Int × Int × Int))

/-- The gap-scanning loop of `_detect_layout`: walk the vertical projection,
recording `(gap_start, i)` whenever a below-threshold run ends and is wider
than 5% of the page width. -/
def gapScanStep (threshold : ℚ) (w : Nat)
    (st : Bool × Nat × List (Nat × Nat)) (iv : Nat × ℚ) :
    Bool × Nat × List (Nat × Nat) :=
  let inGap := st.1
  let gapStart := st.2.1
  let gaps := st.2.2
  if iv.2 < threshold && !inGap then (true, iv.1, gaps)
  else if iv.2 ≥ threshold && inGap then
    (false, gapStart,
      if ((iv.1 : ℚ) - (gapStart : ℚ)) > (w : ℚ) * (5 / 100) then gaps ++ [(gapStart, iv.1)]
      else gaps)
  else (inGap, gapStart, gaps)

/-- The qualifying gaps found by `_detect_layout` in a projection (the
threshold is half the mean projection value). -/
def gapScan (w : Nat) (proj : List ℚ) : List (Nat × Nat) :=
  let threshold : ℚ :=
    (if proj.length = 0 then 0 else proj.sum / (proj.length : ℚ)) * (1 / 2)
  (proj.enum.foldl (gapScanStep threshold w) (false, 0, [])).2.2

/-- `DocumentOCRAgent._detect_layout`.  The initial dict has `columns = 0`;
each successful stage mutates it, and an exception leaves the fields set so
far (the whole body is wrapped in `try/except: pass`). -/
def detect_layout (inp : LayoutInput) : LayoutT :=
  let base : LayoutT := { regions := [], columns := 0, orientation := "portrait" }
  if !inp.cv2Available then base
  else
    match inp.grayShape with
    | none => base
    | some hw =>
      let l1 := { base with orientation := if hw.2 > hw.1 then "landscape" else "portrait" }
      match inp.proj with
      | none => l1
      | some proj =>
        let gaps := gapScan hw.2 proj
        let l2 := { l1 with columns := if gaps ≠ [] then gaps.length + 1 else 1 }
        match inp.rects with
        | none => l2
        | some rects =>
          { l2 with regions :=
              (rects.filter fun r => r.2.2.1 * r.2.2.2 > 1000).map fun r =>
                { rx := r.1, ry := r.2.1, rw := r.2.2.1, rh := r.2.2.2,
                  area := r.2.2.1 * r.2.2.2 } }

/-! ### `document_ocr_agent.py`: image preprocessing

The cv2 operations are abstract, possibly-failing functions on an abstract
image type; `Except.error` models a raised exception. -/

/-- The cv2 operations `_preprocess_image` and `_deskew_image` call, over an
abstract image type `α`; `channels` models `len(image.shape)`. -/
structure ImgOps (α : Type) where
  channels : α → Nat
  cvtGray : α → Except String α
  medianBlur : α → Except String α
  adaptiveThreshold : α → Except String α
  deskewCore : α → Except String α

/-- The preprocessing options read from the options dict. -/
structure PreOpts where
  denoise : Bool
  enhance_contrast : Bool
  deskew : Bool

/-- `DocumentOCRAgent._deskew_image`: the whole body is inside
`try/except: return image`, so a failure of the underlying computation
returns the input unchanged. -/
def deskew_image {α : Type} (ops : ImgOps α) (img : α) : α :=
  match ops.deskewCore img with
  | Except.ok r => r
  | Except.error _ => img

/-- `DocumentOCRAgent._preprocess_image`: grayscale, then optional denoise,
contrast enhancement and deskew.  Only the deskew step is individually
wrapped; an exception in any other step aborts the whole function. -/
def preprocess_image {α : Type} (ops : ImgOps α) (opts : PreOpts) (cv2 : Bool)
    (img : α) : Except String α :=
  if !cv2 then Except.ok img
  else do
    let gray ← if ops.channels img = 3 then ops.cvtGray img else pure img
    let g1 ← if opts.denoise then ops.medianBlur gray else pure gray
    let g2 ← if opts.enhance_contrast then ops.adaptiveThreshold g1 else pure g1
    let g3 := if opts.deskew then deskew_image ops g2 else g2
    pure g3

/-- The part of `process_document` around preprocessing and OCR: run
preprocessing when requested; on an exception, the outer handler records
`OCR processing error: …` and no OCR is attempted.  Returns whether the OCR
backend ran, together with the errors list. -/
def process_document_preprocess {α : Type} (ops : ImgOps α) (opts : PreOpts)
    (preprocess cv2 : Bool) (img : α) : Bool × List String :=
  match (if preprocess then preprocess_image ops opts cv2 img else Except.ok img) with
  | Except.ok _ => (true, [])
  | Except.error e => (false, ["OCR processing error: " ++ e])

/-! ### `document_processor.py`: `process` and its cache -/

/-- The fields of the result dict built by `DocumentProcessor.process` that
the cache claims depend on; `contentText` abstracts the `content` dict. -/
structure ProcResult where
  file : String
  timestamp : Nat
  contentText : String
  metaFileType : Option String
  metaFileSize : Option Nat
  errors : List String
deriving DecidableEq, Repr

/-- The environment `process` runs in: the file system and the combined
output of the sub-agents for a given path. -/
structure ProcEnv where
  fileExists : String → Bool
  fileSize : String → Nat
  fileExt : String → String
  subContent : String → String
  subErrors : String → List String

/-- `_is_image_file`. -/
def isImageExt (e : String) : Bool :=
  e = ".png" || e = ".jpg" || e = ".jpeg" || e = ".gif" || e = ".bmp"
    || e = ".tiff" || e = ".tif"

/-- `_is_text_document`. -/
def isTextExt (e : String) : Bool :=
  e = ".pdf" || e = ".docx" || e = ".doc" || e = ".txt" || e = ".html"
    || e = ".xml" || e = ".csv" || e = ".xlsx" || e = ".xls" || e = ".pptx"
    || e = ".ppt" || e = ".md" || e = ".json"

/-- `_get_cache_key`: the md5 of `f"{file_path}_{json.dumps(options)}"` is
modelled by the key data itself (md5 is treated as injective). -/
def get_cache_key (path optsJson : String) : String :=
  path ++ "_" ++ optsJson

/-- `DocumentProcessor.process`, with the cache as explicit state (`none`
models `cache_results=False`) and the clock as an argument.  The result
triple is (result, new cache state, number of sub-agent invocations); the
`Except` layer marks where an uncaught exception would escape — no path
below produces one, because the body is wrapped in `try/except`.

Both cache tests faithfully model Python truthiness: `if self.cache` and
`if self.cache and cache_key in self.cache` are false when the dict is
*empty*, not only when it is `None`. -/
def process (env : ProcEnv) (cache : Option (List (String × ProcResult)))
    (path optsJson : String) (now : Nat) :
    Except String (ProcResult × Option (List (String × ProcResult)) × Nat) :=
  let key := get_cache_key path optsJson
  let cacheHit : Option ProcResult :=
    match cache with
    | some c => if c ≠ [] then c.lookup key else none
    | none => none
  match cacheHit with
  | some r => Except.ok (r, cache, 0)
  | none =>
    let r0 : ProcResult :=
      { file := path, timestamp := now, contentText := "",
        metaFileType := none, metaFileSize := none, errors := [] }
    if !env.fileExists path then
      -- early return inside the `try`: the result is NOT stored in the cache
      Except.ok ({ r0 with errors := ["File not found: " ++ path] }, cache, 0)
    else
      let ext := env.fileExt path
      let r1 := { r0 with metaFileType := some ext,
                          metaFileSize := some (env.fileSize path) }
      let rc : ProcResult × Nat :=
        if isImageExt ext || isTextExt ext then
          ({ r1 with contentText := env.subContent path,
                     errors := r1.errors ++ env.subErrors path }, 1)
        else
          ({ r1 with errors := r1.errors ++ ["Unsupported file type: " ++ ext] }, 0)
      let cache' : Option (List (String × ProcResult)) :=
        match cache with
        | some c => if c ≠ [] then some ((key, rc.1) :: c) else some c
        | none => none
      Except.ok (rc.1, cache', rc.2)

/-- Fixed cv2 operation stub over `Nat` images: every step succeeds except
denoise (which raises `blur`) and the deskew core (which raises `skew`). -/
def opsStub : ImgOps Nat :=
  { channels := fun _ => 1
    cvtGray := Except.ok
    medianBlur := fun _ => Except.error "blur"
    adaptiveThreshold := Except.ok
    deskewCore := fun _ => Except.error "skew" }

/-- Preprocessing options with every optional step enabled. -/
def optsStub : PreOpts :=
  { denoise := true, enhance_contrast := true, deskew := true }

/-! ## Helper lemmas -/

theorem nodup_iff_dedup_length {α : Type} [DecidableEq α] (l : List α) :
    l.Nodup ↔ l.dedup.length = l.length := by
  constructor
  · intro h
    rw [List.dedup_eq_self.mpr h]
  · intro h
    have he := (List.dedup_sublist l).eq_of_length h
    rw [← he]
    exact List.nodup_dedup l

theorem sum_map_mul_hundred (l : List ℚ) :
    (l.map fun q => q * 100).sum = l.sum * 100 := by
  induction l with
  | nil => simp
  | cons a t ih => simp [ih, add_mul]

/-! ## Claim theorems -/

/-- C5: on the three-line pipe-delimited input, the text-table path yields
exactly one table with headers `["Name","Age","Dept"]`, two data rows whose
first row maps Name↦John, Age↦30, Dept↦Eng, three columns, and the pipe
delimiter (selected with priority pipe > tab > multi-space > comma from the
first line, with pipe-split empty cells discarded). -/
theorem c5_pipe_table_parse :
    parse_text_tables "Name | Age | Dept\nJohn | 30  | Eng\nJane | 28  | HR" =
      [{ data := [[("Name", "John"), ("Age", "30"), ("Dept", "Eng")],
                  [("Name", "Jane"), ("Age", "28"), ("Dept", "HR")]]
         headers := ["Name", "Age", "Dept"]
         rows := 2
         columns := 3
         delimiter := "|" }] := by
  decide

/-- C6: `_detect_data_type` classifies a cell exactly as the specification's
priority chain prescribes — empty, then float-after-stripping-commas, then
date pattern, then boolean literal, then currency, then percentage, then
text — and in particular sends `"$1,250.00"` to currency, `"45%"` to
percentage, `"2024-01-15"` to date, `"yes"` to boolean and `""` to empty. -/
theorem c6_type_inference_priority :
    (∀ s : String, detect_data_type s = specDataType s)
    ∧ detect_data_type "$1,250.00" = "currency"
    ∧ detect_data_type "45%" = "percentage"
    ∧ detect_data_type "2024-01-15" = "date"
    ∧ detect_data_type "yes" = "boolean"
    ∧ detect_data_type "" = "empty" :=
  ⟨fun _ => rfl, by decide, by decide, by decide, by decide, by decide⟩

/-- C7 counterexample: when the first cv2 stage of `_detect_layout` raises,
the default layout is returned with `columns = 0`, not an integer ≥ 1 as the
claim states. -/
theorem c7_layout_default_columns_zero :
    (detect_layout
        { cv2Available := true, grayShape := none, proj := none, rects := none }).columns = 0
      ∧ ¬ 1 ≤ (detect_layout
        { cv2Available := true, grayShape := none, proj := none, rects := none }).columns := by
  decide

/-- C7 (amended): when layout analysis reaches the column scan (cv2 present,
grayscale and projection stages succeed), the column count is the number of
qualifying gaps plus one, hence at least 1; on an exception before that scan
(or without cv2) the returned default keeps `columns = 0`. -/
theorem c7_layout_columns_pos (inp : LayoutInput) (hw : Nat × Nat) (proj : List ℚ)
    (hcv : inp.cv2Available = true) (hg : inp.grayShape = some hw)
    (hp : inp.proj = some proj) :
    (detect_layout inp).columns = (gapScan hw.2 proj).length + 1
    ∧ 1 ≤ (detect_layout inp).columns := by
  have h1 : (detect_layout inp).columns = (gapScan hw.2 proj).length + 1 := by
    cases hr : inp.rects with
    | none =>
      by_cases hgap : gapScan hw.2 proj = [] <;>
        simp [detect_layout, hcv, hg, hp, hr, hgap]
    | some rects =>
      by_cases hgap : gapScan hw.2 proj = [] <;>
        simp [detect_layout, hcv, hg, hp, hr, hgap]
  exact ⟨h1, by omega⟩

/-- C7 witness: the amended theorem applied to a concrete successful input. -/
theorem c7_layout_columns_pos_witness :
    1 ≤ (detect_layout
      { cv2Available := true, grayShape := some (4, 7), proj := some [], rects := none }).columns :=
  (c7_layout_columns_pos
    { cv2Available := true, grayShape := some (4, 7), proj := some [], rects := none }
    (4, 7) [] rfl rfl rfl).2

/-- C2 counterexample: a table with duplicate headers (and data) keeps
`is_valid = true` even though the duplicate-header issue is recorded, so
validity is not cleared for this issue as the claim states. -/
theorem c2_duplicate_headers_still_valid :
    (validate_table_structure
        { headers := ["Name", "Name"], data := [[("Name", "x")]] }).is_valid = true
    ∧ (validate_table_structure
        { headers := ["Name", "Name"], data := [[("Name", "x")]] }).issues
        = ["Duplicate headers found"] := by
  decide

/-- C2 (amended): `is_valid` is false exactly when the table has no data (in
which case the only recorded issue is `No data found`); when data is present,
`issues` is exactly the concatenation of the three optional entries —
inconsistent column count, missing or empty headers, duplicate headers —
each present under its stated condition, while `is_valid` stays true. -/
theorem c2_validation_issues (t : TableV) :
    ((validate_table_structure t).is_valid = false ↔ t.data = [])
    ∧ (t.data = [] → (validate_table_structure t).issues = ["No data found"])
    ∧ (t.data ≠ [] → (validate_table_structure t).issues =
        (if 1 < (t.data.map List.length).dedup.length
         then ["Inconsistent column count across rows"] else [])
        ++ (if t.headers = [] ∨ "" ∈ t.headers
            then ["Missing or empty headers"] else [])
        ++ (if ¬ t.headers.Nodup
            then ["Duplicate headers found"] else [])) := by
  by_cases hd : t.data = []
  · exact ⟨by simp [validate_table_structure, hd],
      fun _ => by simp [validate_table_structure, hd],
      fun h => absurd hd h⟩
  · refine ⟨by simp [validate_table_structure, hd], fun h => absurd h hd, fun _ => ?_⟩
    have hnodup : (t.headers.length ≠ t.headers.dedup.length) ↔ ¬ t.headers.Nodup := by
      rw [nodup_iff_dedup_length]
      omega
    have h2' : (t.headers = [] || t.headers.any fun h => h = "") = true
        ↔ (t.headers = [] ∨ "" ∈ t.headers) := by
      rw [Bool.or_eq_true]
      constructor
      · intro hb
        rcases hb with hb | hb
        · exact Or.inl (of_decide_eq_true hb)
        · rcases List.any_eq_true.mp hb with ⟨x, hx, hxe⟩
          have hxx : x = "" := of_decide_eq_true hxe
          exact Or.inr (hxx ▸ hx)
      · intro hp
        rcases hp with hp | hp
        · exact Or.inl (decide_eq_true hp)
        · exact Or.inr (List.any_eq_true.mpr ⟨"", hp, decide_eq_true rfl⟩)
    have hiss : (validate_table_structure t).issues =
        (if 1 < (t.data.map List.length).dedup.length
         then ["Inconsistent column count across rows"] else [])
        ++ (if (t.headers = [] || t.headers.any fun h => h = "") = true
            then ["Missing or empty headers"] else [])
        ++ (if t.headers.length ≠ t.headers.dedup.length
            then ["Duplicate headers found"] else []) := by
      simp only [validate_table_structure, if_neg hd, decide_eq_true_eq]
    rw [hiss]
    have e2 : (if (t.headers = [] || t.headers.any fun h => h = "") = true
        then (["Missing or empty headers"] : List String) else [])
        = (if t.headers = [] ∨ "" ∈ t.headers
           then ["Missing or empty headers"] else []) := by
      by_cases h : t.headers = [] ∨ "" ∈ t.headers
      · rw [if_pos (h2'.mpr h), if_pos h]
      · rw [if_neg (fun hc => h (h2'.mp hc)), if_neg h]
    have e3 : (if t.headers.length ≠ t.headers.dedup.length
        then (["Duplicate headers found"] : List String) else [])
        = (if ¬ t.headers.Nodup then ["Duplicate headers found"] else []) := by
      by_cases h : t.headers.Nodup
      · rw [if_neg (fun hc => (hnodup.mp hc) h), if_neg (fun hc => hc h)]
      · rw [if_pos (hnodup.mpr h), if_pos h]
    rw [e2, e3]

/-- C2 witness: the amended theorem applied to a concrete table with data
and duplicate headers. -/
theorem c2_validation_issues_witness :
    (validate_table_structure
        { headers := ["Name", "Name"], data := [[("Name", "x")]] }).issues =
      (if 1 < (([[("Name", "x")]] : List (List (String × String))).map List.length).dedup.length
       then ["Inconsistent column count across rows"] else [])
      ++ (if (["Name", "Name"] : List String) = [] ∨ "" ∈ (["Name", "Name"] : List String)
          then ["Missing or empty headers"] else [])
      ++ (if ¬ (["Name", "Name"] : List String).Nodup
          then ["Duplicate headers found"] else []) :=
  (c2_validation_issues
      { headers := ["Name", "Name"], data := [[("Name", "x")]] }).2.2
    (by decide)

/-- C8 counterexample: with a denoise step that raises, `_preprocess_image`
fails as a whole (the exception is not degraded to pass-through), and the
surrounding `process_document` records a top-level error without running the
OCR backend — the remaining pipeline does not continue. -/
theorem c8_denoise_failure_aborts :
    preprocess_image opsStub optsStub true 0 = Except.error "blur"
    ∧ process_document_preprocess opsStub optsStub true true 0
        = (false, ["OCR processing error: blur"]) :=
  ⟨rfl, rfl⟩

/-- C8 (amended): only the deskew sub-step is individually wrapped — a
failure of its core computation returns the input image unchanged — while an
exception in any other sub-step (here denoise, once grayscale succeeded)
aborts preprocessing and is caught only by `process_document`'s outer
handler, so the OCR backend is never invoked for that call. -/
theorem c8_only_deskew_wrapped {α : Type} (ops : ImgOps α) (opts : PreOpts)
    (img g : α) (e : String)
    (hg : (if ops.channels img = 3 then ops.cvtGray img else pure img) = Except.ok g)
    (hd : opts.denoise = true)
    (hb : ops.medianBlur g = Except.error e) :
    preprocess_image ops opts true img = Except.error e
    ∧ process_document_preprocess ops opts true true img
        = (false, ["OCR processing error: " ++ e])
    ∧ ∀ (i : α) (e2 : String), ops.deskewCore i = Except.error e2 → deskew_image ops i = i := by
  have h1 : preprocess_image ops opts true img = Except.error e := by
    by_cases hc : ops.channels img = 3
    · rw [if_pos hc] at hg
      simp [preprocess_image, hd, hc, hg, hb, bind, Except.bind]
    · rw [if_neg hc] at hg
      have himg : img = g := by
        simpa [pure, Except.pure] using hg
      subst himg
      simp [preprocess_image, hd, hc, hb, bind, Except.bind, pure, Except.pure]
  refine ⟨h1, ?_, ?_⟩
  · simp [process_document_preprocess, h1]
  · intro i e2 he2
    simp only [deskew_image, he2]

/-- C8 witness: the amended theorem at the concrete operation stub. -/
theorem c8_only_deskew_wrapped_witness :
    preprocess_image opsStub optsStub true 5 = Except.error "blur"
    ∧ process_document_preprocess opsStub optsStub true true 5
        = (false, ["OCR processing error: blur"])
    ∧ deskew_image opsStub 5 = 5 :=
  have h := c8_only_deskew_wrapped opsStub optsStub 5 5 "blur" rfl rfl rfl
  ⟨h.1, h.2.1, h.2.2 5 "skew" rfl⟩

/-- C9 counterexample: `process` on a missing file returns normally
(`Except.ok`, modelling the absence of an uncaught exception) with the
failure absorbed into the result's errors list, instead of propagating a
hard failure as the claim states. -/
theorem c9_missing_file_no_raise :
    process
        { fileExists := fun _ => false, fileSize := fun _ => 0,
          fileExt := fun _ => ".txt", subContent := fun _ => "",
          subErrors := fun _ => [] }
        (some []) "missing.txt" "optsjson" 5
      = Except.ok
          ({ file := "missing.txt", timestamp := 5, contentText := "",
             metaFileType := none, metaFileSize := none,
             errors := ["File not found: missing.txt"] }, some [], 0) :=
  rfl

/-- C9 (amended): for every path that does not exist (and is not already a
cache hit), `process` returns normally with
`File not found: <path>` as its sole error, invokes no sub-agent, and leaves
the cache unchanged — the missing-file condition never escapes as an
exception. -/
theorem c9_missing_file_absorbed (env : ProcEnv)
    (cache : Option (List (String × ProcResult))) (path optsJson : String) (now : Nat)
    (hmiss : env.fileExists path = false)
    (hnohit : ∀ c, cache = some c → c.lookup (get_cache_key path optsJson) = none) :
    process env cache path optsJson now =
      Except.ok
        ({ file := path, timestamp := now, contentText := "", metaFileType := none,
           metaFileSize := none, errors := ["File not found: " ++ path] }, cache, 0) := by
  cases cache with
  | none => simp [process, hmiss]
  | some c =>
    have hlk := hnohit c rfl
    simp [process, hmiss, hlk]

/-- C9 witness: the amended theorem at a concrete environment and empty
cache. -/
theorem c9_missing_file_absorbed_witness :
    process
        { fileExists := fun _ => false, fileSize := fun _ => 9,
          fileExt := fun _ => ".pdf", subContent := fun _ => "c",
          subErrors := fun _ => [] }
        (some []) "gone.pdf" "{}" 7
      = Except.ok
          ({ file := "gone.pdf", timestamp := 7, contentText := "",
             metaFileType := none, metaFileSize := none,
             errors := ["File not found: gone.pdf"] }, some [], 0) :=
  c9_missing_file_absorbed
    { fileExists := fun _ => false, fileSize := fun _ => 9,
      fileExt := fun _ => ".pdf", subContent := fun _ => "c",
      subErrors := fun _ => [] }
    (some []) "gone.pdf" "{}" 7 rfl
    (fun c hc => by cases hc; rfl)

/-- C4: with caching enabled the cache dict starts empty, and because both
cache tests use Python truthiness (`if self.cache:` is false for an empty
dict), nothing is ever stored: starting from the empty cache every call
leaves it empty, and a concrete second call with identical arguments
re-invokes the sub-agents (invocation count 1, not 0) and returns a result
differing from the first (fresh timestamp). -/
theorem c4_cache_never_stores :
    (∀ (env : ProcEnv) (path optsJson : String) (now : Nat),
      ((process env (some []) path optsJson now).map fun x => x.2.1)
        = Except.ok (some ([] : List (String × ProcResult))))
    ∧ process
        { fileExists := fun _ => true, fileSize := fun _ => 3,
          fileExt := fun _ => ".txt", subContent := fun _ => "hello",
          subErrors := fun _ => [] }
        (some []) "doc.txt" "o" 1
        = Except.ok
            ({ file := "doc.txt", timestamp := 1, contentText := "hello",
               metaFileType := some ".txt", metaFileSize := some 3,
               errors := [] }, some [], 1)
    ∧ process
        { fileExists := fun _ => true, fileSize := fun _ => 3,
          fileExt := fun _ => ".txt", subContent := fun _ => "hello",
          subErrors := fun _ => [] }
        (some []) "doc.txt" "o" 2
        = Except.ok
            ({ file := "doc.txt", timestamp := 2, contentText := "hello",
               metaFileType := some ".txt", metaFileSize := some 3,
               errors := [] }, some [], 1)
    ∧ ({ file := "doc.txt", timestamp := 1, contentText := "hello",
         metaFileType := some ".txt", metaFileSize := some 3,
         errors := [] } : ProcResult)
        ≠ { file := "doc.txt", timestamp := 2, contentText := "hello",
            metaFileType := some ".txt", metaFileSize := some 3,
            errors := [] } := by
  refine ⟨?_, rfl, rfl, by decide⟩
  intro env path optsJson now
  by_cases hex : env.fileExists path
  · by_cases hsup : isImageExt (env.fileExt path) || isTextExt (env.fileExt path)
    · simp [process, hex, hsup, Except.map]
    · simp [process, hex, hsup, Except.map]
  · simp [process, hex, Except.map]

/-- The `blocks` and `confidences` lists of the Tesseract loop stay in
lockstep: the collected confidences are exactly the confidences of the
collected blocks. -/
theorem tessFold_confidences (th : ℚ) (items : List TessItem) :
    ∀ (bs : List BlockT) (cs : List ℚ), cs = bs.map BlockT.confidence →
      (items.foldl (tessStep th) (bs, cs)).2
        = (items.foldl (tessStep th) (bs, cs)).1.map BlockT.confidence := by
  induction items with
  | nil => intro bs cs h; simpa using h
  | cons it rest ih =>
    intro bs cs h
    simp only [List.foldl_cons]
    have hstep : (tessStep th (bs, cs) it).2
        = (tessStep th (bs, cs) it).1.map BlockT.confidence := by
      simp only [tessStep]
      split
      · split
        · split
          · simp [h]
          · exact h
        · exact h
      · exact h
    have := ih (tessStep th (bs, cs) it).1 (tessStep th (bs, cs) it).2 hstep
    simpa using this

/-- The EasyOCR loop invariant: block confidences are the raw collected
confidences scaled by 100. -/
theorem easyFold_confidences (th : ℚ) (items : List EasyItem) :
    ∀ (ts : List String) (bs : List EasyBlock) (cs : List ℚ),
      bs.map EasyBlock.confidence = cs.map (fun q => q * 100) →
      (items.foldl (easyStep th) (ts, bs, cs)).2.1.map EasyBlock.confidence
        = (items.foldl (easyStep th) (ts, bs, cs)).2.2.map (fun q => q * 100) := by
  induction items with
  | nil => intro ts bs cs h; simpa using h
  | cons it rest ih =>
    intro ts bs cs h
    simp only [List.foldl_cons]
    have hstep : (easyStep th (ts, bs, cs) it).2.1.map EasyBlock.confidence
        = (easyStep th (ts, bs, cs) it).2.2.map (fun q => q * 100) := by
      simp only [easyStep]
      split
      · simp [h]
      · exact h
    have := ih (easyStep th (ts, bs, cs) it).1 (easyStep th (ts, bs, cs) it).2.1
      (easyStep th (ts, bs, cs) it).2.2 hstep
    simpa using this

/-- C3: for both OCR backends, the returned document confidence is the
arithmetic mean of the confidences of the retained blocks (those stored in
`blocks`, i.e. the ones that survived the threshold, on the 0–100 scale) and
is 0 when no block survives; dropped items contribute nothing because only
retained blocks enter the mean. -/
theorem c3_confidence_is_mean_of_retained :
    (∀ (fullText : String) (items : List TessItem) (th : ℚ),
      (ocr_with_tesseract fullText items th).confidence =
        if (ocr_with_tesseract fullText items th).blocks = [] then 0
        else ((ocr_with_tesseract fullText items th).blocks.map BlockT.confidence).sum
              / (((ocr_with_tesseract fullText items th).blocks.length : ℚ)))
    ∧ (∀ (items : List EasyItem) (th : ℚ),
      (ocr_with_easyocr items th).confidence =
        if (ocr_with_easyocr items th).blocks = [] then 0
        else ((ocr_with_easyocr items th).blocks.map EasyBlock.confidence).sum
              / (((ocr_with_easyocr items th).blocks.length : ℚ))) := by
  constructor
  · intro fullText items th
    have hinv := tessFold_confidences th items [] [] rfl
    simp only [ocr_with_tesseract, hinv, List.map_eq_nil, List.length_map]
  · intro items th
    have hinv := easyFold_confidences th items [] [] [] rfl
    set tbc := items.foldl (easyStep th) ([], [], []) with htbc
    have hlen : tbc.2.1.length = tbc.2.2.length := by
      have := congrArg List.length hinv
      simpa using this
    by_cases hcs : tbc.2.2 = []
    · have hbs : tbc.2.1 = [] := by
        have : tbc.2.1.length = 0 := by rw [hlen, hcs]; rfl
        exact List.eq_nil_of_length_eq_zero this
      simp [ocr_with_easyocr, ← htbc, hcs, hbs]
    · have hbs : tbc.2.1 ≠ [] := by
        intro hb
        apply hcs
        have : tbc.2.2.length = 0 := by rw [← hlen, hb]; rfl
        exact List.eq_nil_of_length_eq_zero this
      simp only [ocr_with_easyocr, ← htbc, if_neg hcs, if_neg hbs, hinv,
        sum_map_mul_hundred, List.length_map, hlen]
      rw [div_mul_eq_mul_div]

/-- Values inserted by `dictInsert` satisfy any property that held of the
existing values and holds of the inserted value. -/
theorem dictInsert_forall_snd (P : String → Prop) (r : List (String × String))
    (k v : String) (hr : ∀ kv ∈ r, P kv.2) (hv : P v) :
    ∀ kv ∈ dictInsert r k v, P kv.2 := by
  intro kv hkv
  unfold dictInsert at hkv
  split at hkv
  · rcases List.mem_map.mp hkv with ⟨a, ha, hfa⟩
    by_cases hak : a.1 = k
    · rw [if_pos hak] at hfa
      rw [← hfa]
      exact hv
    · rw [if_neg hak] at hfa
      rw [← hfa]
      exact hr a ha
  · rcases List.mem_append.mp hkv with h | h
    · exact hr kv h
    · have hkvv : kv = (k, v) := by simpa using h
      rw [hkvv]
      exact hv

/-- Folding `dictInsert` over pairs preserves a property of all values. -/
theorem foldl_dictInsert_forall_snd (P : String → Prop) :
    ∀ (ps : List (String × String)) (r0 : List (String × String)),
      (∀ kv ∈ r0, P kv.2) → (∀ p ∈ ps, P p.2) →
      ∀ kv ∈ ps.foldl (fun r kv => dictInsert r kv.1 kv.2) r0, P kv.2 := by
  intro ps
  induction ps with
  | nil => intro r0 h0 _ kv hkv; exact h0 kv hkv
  | cons p rest ih =>
    intro r0 h0 hps kv hkv
    simp only [List.foldl_cons] at hkv
    exact ih (dictInsert r0 p.1 p.2)
      (dictInsert_forall_snd P r0 p.1 p.2 h0 (hps p (by simp)))
      (fun q hq => hps q (by simp [hq])) kv hkv

/-- Every value of a row built by `buildRow` is one of the cells. -/
theorem buildRow_forall_snd (P : String → Prop) (headers cells : List String)
    (hc : ∀ c ∈ cells, P c) : ∀ kv ∈ buildRow headers cells, P kv.2 := by
  apply foldl_dictInsert_forall_snd
  · intro kv hkv
    exact absurd hkv (List.not_mem_nil kv)
  · intro p hp
    unfold rowPairs at hp
    rcases List.mem_map.mp hp with ⟨jv, hjv, hfp⟩
    have hsnd : jv.2 ∈ cells := by
      have hmm := List.mem_map_of_mem Prod.snd hjv
      rwa [List.enum_map_snd] at hmm
    rw [← hfp]
    exact hc jv.2 hsnd

/-- Cells produced by the pipe branch are never empty strings. -/
theorem pipeCells_ne_empty (line : String) : ∀ c ∈ pipeCells line, c ≠ "" := by
  intro c hc
  exact of_decide_eq_true (List.mem_filter.mp hc).2

/-- In the pipe branch, `splitCells` is exactly `pipeCells`. -/
theorem splitCells_pipe (line : String) : splitCells "|" line = pipeCells line := by
  simp [splitCells]

/-- Every row produced by the `_parse_text_table` loop on the pipe delimiter
has only non-empty values, provided the rows accumulated so far do. -/
theorem parseAux_pipe_rows :
    ∀ (lines headers : List String) (data : List (List (String × String))),
      (∀ row ∈ data, ∀ kv ∈ row, kv.2 ≠ "") →
      ∀ row ∈ (parseTextTableAux "|" lines headers data).1, ∀ kv ∈ row, kv.2 ≠ "" := by
  intro lines
  induction lines with
  | nil => intro headers data h row hrow; exact h row hrow
  | cons line rest ih =>
    intro headers data h row hrow
    by_cases hsep : isSeparatorLine line
    · have he : parseTextTableAux "|" (line :: rest) headers data
          = parseTextTableAux "|" rest headers data := by
        simp [parseTextTableAux, hsep]
      rw [he] at hrow
      exact ih headers data h row hrow
    · by_cases hh : headers = []
      · have he : parseTextTableAux "|" (line :: rest) headers data
            = parseTextTableAux "|" rest (splitCells "|" line) data := by
          simp [parseTextTableAux, hsep, hh]
        rw [he] at hrow
        exact ih (splitCells "|" line) data h row hrow
      · have he : parseTextTableAux "|" (line :: rest) headers data
            = parseTextTableAux "|" rest headers
                (data ++ [buildRow headers (splitCells "|" line)]) := by
          simp [parseTextTableAux, hsep, hh]
        rw [he] at hrow
        refine ih headers _ ?_ row hrow
        intro row2 hrow2 kv hkv
        rcases List.mem_append.mp hrow2 with h2 | h2
        · exact h row2 h2 kv hkv
        · have hrw : row2 = buildRow headers (splitCells "|" line) := by simpa using h2
          rw [hrw] at hkv
          rw [splitCells_pipe] at hkv
          exact buildRow_forall_snd (fun s => s ≠ "") headers (pipeCells line)
            (pipeCells_ne_empty line) kv hkv

/-- C10: in the pipe branch every whitespace-empty cell is discarded before
cells are matched to headers by position, so (first conjunct) when the
pipe-split of a line is `p ++ [e] ++ q` with `e` the only empty cell and `e`
not in first position, the `j`-th cell of `q` — visually in column
`p.length + 1 + j` — lands at index `p.length + j` of the parsed cell list
and is assigned the header of index `p.length + j`, one position earlier
than its visual column; and (second conjunct) no record produced by the
text-table path with the pipe delimiter ever contains an empty-string
value. -/
theorem c10_pipe_empty_cell_shift :
    (∀ (line e : String) (p q headers : List String) (j : Nat)
        (hsplit : pipeSplit line = p ++ e :: q) (he : pyStrip e = "")
        (hp : p ≠ []) (hne : ∀ x ∈ p ++ q, pyStrip x ≠ "")
        (hj : j < q.length) (hh : p.length + j < headers.length),
      (pipeCells line).get? (p.length + j) = some (pyStrip (q.get ⟨j, hj⟩))
      ∧ (rowPairs headers (pipeCells line)).get? (p.length + j)
          = some (headers.get ⟨p.length + j, hh⟩, pyStrip (q.get ⟨j, hj⟩)))
    ∧ (∀ (text : String) (t : TableT), t ∈ parse_text_tables text →
        t.delimiter = "|" → ∀ row ∈ t.data, ∀ kv ∈ row, kv.2 ≠ "") := by
  constructor
  · intro line e p q headers j hsplit he hp hne hj hh
    have hcells : pipeCells line = p.map pyStrip ++ q.map pyStrip := by
      unfold pipeCells
      rw [hsplit, List.map_append, List.map_cons, List.filter_append]
      have hfp : ((p.map pyStrip).filter fun s => s ≠ "") = p.map pyStrip := by
        refine List.filter_eq_self.mpr ?_
        intro a ha
        rcases List.mem_map.mp ha with ⟨x, hx, hxa⟩
        rw [← hxa]
        exact decide_eq_true (hne x (List.mem_append.mpr (Or.inl hx)))
      have hfq : ((q.map pyStrip).filter fun s => s ≠ "") = q.map pyStrip := by
        refine List.filter_eq_self.mpr ?_
        intro a ha
        rcases List.mem_map.mp ha with ⟨x, hx, hxa⟩
        rw [← hxa]
        exact decide_eq_true (hne x (List.mem_append.mpr (Or.inr hx)))
      have hecons : ((pyStrip e :: q.map pyStrip).filter fun s => s ≠ "")
          = (q.map pyStrip).filter fun s => s ≠ "" := by
        rw [List.filter_cons]
        rw [he]
        simp
      rw [hfp, hecons, hfq]
    have h1 : (pipeCells line).get? (p.length + j) = some (pyStrip (q.get ⟨j, hj⟩)) := by
      rw [hcells]
      rw [List.get?_append_right (by simp)]
      simp only [List.length_map, Nat.add_sub_cancel_left]
      rw [List.get?_map, List.get?_eq_get hj]
      rfl
    refine ⟨h1, ?_⟩
    unfold rowPairs
    rw [List.get?_map, List.enum_get?, h1]
    simp only [Option.map_some']
    have hk : keyFor headers (p.length + j) = headers.get ⟨p.length + j, hh⟩ := by
      simp [keyFor, hh]
    rw [hk]
  · intro text t ht hdel row hrow kv hkv
    unfold parse_text_tables at ht
    rcases List.mem_filterMap.mp ht with ⟨tt, _, hpt⟩
    unfold parse_text_table at hpt
    cases hls : (splitChar '\n' (pyStrip tt).data).map (fun l => (⟨l⟩ : String)) with
    | nil =>
      rw [hls] at hpt
      exact absurd hpt (by simp)
    | cons line0 restl =>
      rw [hls] at hpt
      simp only at hpt
      by_cases hnil :
          (parseTextTableAux (detect_delimiter line0) (line0 :: restl) [] []).1 = []
      · rw [if_pos hnil] at hpt
        exact absurd hpt (by simp)
      · rw [if_neg hnil] at hpt
        have hteq := (Option.some.inj hpt).symm
        have hdl : detect_delimiter line0 = "|" := by
          rw [hteq] at hdel
          exact hdel
        rw [hteq] at hrow
        simp only at hrow
        rw [hdl] at hrow
        exact parseAux_pipe_rows (line0 :: restl) [] []
          (fun row2 hrow2 => absurd hrow2 (List.not_mem_nil row2)) row hrow kv hkv

/-- C10 witness: the theorem applied at a concrete row with one empty
interior cell and at a concrete parsed pipe table. -/
theorem c10_pipe_empty_cell_shift_witness :
    ((pipeCells "John | | Eng").get? 1 = some "Eng"
      ∧ (rowPairs ["Name", "Age", "Dept"] (pipeCells "John | | Eng")).get? 1
          = some ("Age", "Eng"))
    ∧ ("x" : String) ≠ "" := by
  constructor
  · exact c10_pipe_empty_cell_shift.1 "John | | Eng" " " ["John "] [" Eng"]
      ["Name", "Age", "Dept"] 0 (by decide) (by decide) (by decide) (by decide)
      (by decide) (by decide)
  · exact c10_pipe_empty_cell_shift.2 "A | B |\nx | y |"
      ⟨[[("A", "x"), ("B", "y")]], ["A", "B"], 1, 2, "|"⟩ (by decide) rfl
      [("A", "x"), ("B", "y")] (by decide) ("A", "x") (by decide)

/-! ### Decimal-representation lemmas (for the header dedup analysis) -/

theorem digitChar_ne_underscore (n : Nat) (h : n < 10) : Nat.digitChar n ≠ '_' := by
  interval_cases n <;> decide

theorem digitChar_val (n : Nat) (h : n < 10) : (Nat.digitChar n).toNat - 48 = n := by
  interval_cases n <;> decide

theorem decReprAux_no_underscore :
    ∀ (fuel n : Nat), n < fuel → ∀ c ∈ decReprAux fuel n, c ≠ '_' := by
  intro fuel
  induction fuel with
  | zero => intro n h; omega
  | succ f ih =>
    intro n h c hc
    by_cases h10 : n < 10
    · simp only [decReprAux, if_pos h10, List.mem_singleton] at hc
      rw [hc]
      exact digitChar_ne_underscore n h10
    · simp only [decReprAux, if_neg h10] at hc
      rcases List.mem_append.mp hc with h1 | h1
      · have hdiv : n / 10 < f := by
          have hlt : n / 10 < n := Nat.div_lt_self (by omega) (by omega)
          omega
        exact ih (n / 10) hdiv c h1
      · rw [List.mem_singleton.mp h1]
        exact digitChar_ne_underscore (n % 10) (Nat.mod_lt n (by omega))

theorem decVal_append_digit (l : List Char) (c : Char) :
    decVal (l ++ [c]) = decVal l * 10 + (c.toNat - 48) := by
  unfold decVal
  rw [List.foldl_append]
  rfl

theorem decReprAux_val : ∀ (fuel n : Nat), n < fuel → decVal (decReprAux fuel n) = n := by
  intro fuel
  induction fuel with
  | zero => intro n h; omega
  | succ f ih =>
    intro n h
    by_cases h10 : n < 10
    · simp only [decReprAux, if_pos h10]
      have hv := digitChar_val n h10
      simp [decVal, hv]
    · simp only [decReprAux, if_neg h10]
      rw [decVal_append_digit]
      have hdiv : n / 10 < f := by
        have hlt : n / 10 < n := Nat.div_lt_self (by omega) (by omega)
        omega
      rw [ih (n / 10) hdiv, digitChar_val (n % 10) (Nat.mod_lt n (by omega))]
      omega

theorem decRepr_no_underscore (n : Nat) : ∀ c ∈ decRepr n, c ≠ '_' :=
  decReprAux_no_underscore (n + 1) n (Nat.lt_succ_self n)

theorem decRepr_inj {m n : Nat} (h : decRepr m = decRepr n) : m = n := by
  have h1 := decReprAux_val (m + 1) m (Nat.lt_succ_self m)
  have h2 := decReprAux_val (n + 1) n (Nat.lt_succ_self n)
  unfold decRepr at h
  rw [← h1, ← h2, h]

theorem decRepr_ne_nil (n : Nat) : decRepr n ≠ [] := by
  unfold decRepr decReprAux
  split <;> simp

/-- Cancellation around a separator character absent from both suffixes. -/
theorem append_sep_chars :
    ∀ (r1 : List Char) {r2 t1 t2 : List Char}, '_' ∉ r1 → '_' ∉ r2 →
      r1 ++ '_' :: t1 = r2 ++ '_' :: t2 → r1 = r2 ∧ t1 = t2 := by
  intro r1
  induction r1 with
  | nil =>
    intro r2 t1 t2 _ h2 he
    cases r2 with
    | nil => simpa using he
    | cons c r2' =>
      exfalso
      apply h2
      have hc : '_' = c := by
        have := congrArg (fun l => l.head?) he
        simpa using this
      rw [← hc]
      exact List.mem_cons_self '_' r2'
  | cons c r1' ih =>
    intro r2 t1 t2 h1 h2 he
    cases r2 with
    | nil =>
      exfalso
      apply h1
      have hc : c = '_' := by
        have := congrArg (fun l => l.head?) he
        simpa using this
      rw [hc]
      exact List.mem_cons_self '_' r1'
    | cons c2 r2' =>
      have hhead : c = c2 := by
        have := congrArg (fun l => l.head?) he
        simpa using this
      have htail : r1' ++ '_' :: t1 = r2' ++ '_' :: t2 := by
        have := congrArg (fun l => l.tail) he
        simpa using this
      have h1' : '_' ∉ r1' := fun hm => h1 (List.mem_cons_of_mem c hm)
      have h2' : '_' ∉ r2' := fun hm => h2 (List.mem_cons_of_mem c2 hm)
      obtain ⟨hr, ht⟩ := ih h1' h2' htail
      exact ⟨by rw [hhead, hr], ht⟩

/-- Splitting on the last underscore: `a ++ "_" ++ str(m) = b ++ "_" ++ str(n)`
forces `a = b` and `m = n`, because the decimal parts contain no underscore. -/
theorem string_append_sep_inj (a b : String) (m n : Nat)
    (h : a ++ "_" ++ decStr m = b ++ "_" ++ decStr n) : a = b ∧ m = n := by
  have hd : a.data ++ '_' :: decRepr m = b.data ++ '_' :: decRepr n := by
    have hdat := congrArg String.data h
    rw [String.data_append, String.data_append, String.data_append,
      String.data_append] at hdat
    simpa [decStr] using hdat
  have hrev : (decRepr m).reverse ++ '_' :: a.data.reverse
      = (decRepr n).reverse ++ '_' :: b.data.reverse := by
    have hr := congrArg List.reverse hd
    simpa [List.reverse_append] using hr
  have hm : '_' ∉ (decRepr m).reverse := by
    rw [List.mem_reverse]
    intro hmem
    exact decRepr_no_underscore m '_' hmem rfl
  have hn : '_' ∉ (decRepr n).reverse := by
    rw [List.mem_reverse]
    intro hmem
    exact decRepr_no_underscore n '_' hmem rfl
  obtain ⟨hr, ht⟩ := append_sep_chars _ hm hn hrev
  have hab : a = b := by
    have hdata : a.data = b.data := by
      have := congrArg List.reverse ht
      simpa using this
    cases a
    cases b
    exact congrArg String.mk hdata
  have hmn : m = n := by
    apply decRepr_inj
    have := congrArg List.reverse hr
    simpa using this
  exact ⟨hab, hmn⟩

/-- A string is never equal to a longer-or-equal string extended by an
underscore and a decimal numeral. -/
theorem ne_append_underscore_decStr (g g2 : String) (k : Nat)
    (hlen : g.length ≤ g2.length) : g ≠ g2 ++ "_" ++ decStr k := by
  intro he
  have h1 := congrArg String.length he
  rw [String.length_append, String.length_append] at h1
  have h2 : 1 ≤ (decStr k).length := by
    have hpos : 0 < (decRepr k).length := List.length_pos.mpr (decRepr_ne_nil k)
    simpa [decStr, String.length] using hpos
  have h3 : ("_" : String).length = 1 := rfl
  omega

/-- Case analysis for equal outputs of the header renaming function. -/
theorem mkHdr_eq_cases {a b : String} {c d : Nat} (h : mkHdr a c = mkHdr b d) :
    (c = 0 ∧ d = 0 ∧ a = b)
    ∨ (c = 0 ∧ 1 ≤ d ∧ a = b ++ "_" ++ decStr (d + 1))
    ∨ (1 ≤ c ∧ d = 0 ∧ b = a ++ "_" ++ decStr (c + 1))
    ∨ (1 ≤ c ∧ 1 ≤ d ∧ a = b ∧ c = d) := by
  unfold mkHdr at h
  by_cases hc : c = 0 <;> by_cases hd : d = 0
  · rw [if_pos hc, if_pos hd] at h
    exact Or.inl ⟨hc, hd, h⟩
  · rw [if_pos hc, if_neg hd] at h
    exact Or.inr (Or.inl ⟨hc, by omega, h⟩)
  · rw [if_neg hc, if_pos hd] at h
    exact Or.inr (Or.inr (Or.inl ⟨by omega, hd, h.symm⟩))
  · rw [if_neg hc, if_neg hd] at h
    obtain ⟨hab, hcd⟩ := string_append_sep_inj a b (c + 1) (d + 1) h
    exact Or.inr (Or.inr (Or.inr ⟨by omega, by omega, hab, by omega⟩))

theorem uniqueHeadersAux_length (hs : List String) :
    ∀ seen, (uniqueHeadersAux seen hs).length = hs.length := by
  induction hs with
  | nil => intro seen; rfl
  | cons h t ih =>
    intro seen
    simp only [uniqueHeadersAux, List.length_cons, ih]

/-- The `i`-th cleaned header is the `i`-th input header renamed according to
its running occurrence count (prior `seen` count plus occurrences among the
first `i` inputs). -/
theorem uniqueHeadersAux_get :
    ∀ (hs : List String) (seen : String → Nat) (i : Nat) (hi : i < hs.length)
      (hi2 : i < (uniqueHeadersAux seen hs).length),
      (uniqueHeadersAux seen hs).get ⟨i, hi2⟩
        = mkHdr (hs.get ⟨i, hi⟩)
            (seen (hs.get ⟨i, hi⟩) + (hs.take i).count (hs.get ⟨i, hi⟩)) := by
  intro hs
  induction hs with
  | nil => intro seen i hi; simp at hi
  | cons h t ih =>
    intro seen i hi hi2
    cases i with
    | zero => simp [uniqueHeadersAux]
    | succ i' =>
      have hi' : i' < t.length := by simpa using hi
      have hi2' : i' < (uniqueHeadersAux
          (fun x => if x = h then seen h + 1 else seen x) t).length := by
        rw [uniqueHeadersAux_length]
        exact hi'
      have hstep : (uniqueHeadersAux seen (h :: t)).get ⟨i' + 1, hi2⟩
          = (uniqueHeadersAux (fun x => if x = h then seen h + 1 else seen x) t).get
              ⟨i', hi2'⟩ := rfl
      rw [hstep, ih _ i' hi' hi2']
      have hget : (h :: t).get ⟨i' + 1, hi⟩ = t.get ⟨i', hi'⟩ := rfl
      rw [hget]
      congr 1
      try simp only []
      simp only [List.take_succ_cons, List.count_cons]
      by_cases hx : t.get ⟨i', hi'⟩ = h
      · rw [hx, if_pos rfl, beq_self_eq_true h, if_pos rfl]
        omega
      · have hxx : h ≠ t.get ⟨i', hi'⟩ := fun hh => hx hh.symm
        have hbeq : (h == t.get ⟨i', hi'⟩) = false := beq_eq_false_iff_ne.mpr hxx
        rw [if_neg hx, hbeq]
        simp

/-- Under the no-preexisting-suffix hypothesis, two distinct positions of the
cleaned header list cannot coincide. -/
theorem uniqueHeaders_key (hs : List String)
    (H : ∀ g ∈ hs, ∀ g2 ∈ hs, ∀ k, 2 ≤ k → g ≠ g2 ++ "_" ++ decStr k) :
    ∀ (i j : Nat) (hi : i < hs.length) (hj : j < hs.length), i < j →
      mkHdr (hs.get ⟨i, hi⟩) ((hs.take i).count (hs.get ⟨i, hi⟩))
        = mkHdr (hs.get ⟨j, hj⟩) ((hs.take j).count (hs.get ⟨j, hj⟩)) → False := by
  intro i j hi hj hlt heq
  have hmem_i : hs.get ⟨i, hi⟩ ∈ hs := List.get_mem hs i hi
  have hmem_j : hs.get ⟨j, hj⟩ ∈ hs := List.get_mem hs j hj
  have hcount : (hs.take i).count (hs.get ⟨i, hi⟩) + 1
      ≤ (hs.take j).count (hs.get ⟨i, hi⟩) := by
    have htake : hs.take (i + 1) = hs.take i ++ [hs.get ⟨i, hi⟩] := by
      rw [← List.take_concat_get hs i hi, List.concat_eq_append]
      rfl
    have hsub : (hs.take (i + 1)).Sublist (hs.take j) := by
      have hmin : hs.take (i + 1) = (hs.take j).take (i + 1) := by
        rw [List.take_take]
        congr 1
        omega
      rw [hmin]
      exact List.take_sublist (i + 1) (hs.take j)
    have hle := hsub.count_le (hs.get ⟨i, hi⟩)
    rw [htake, List.count_append, List.count_singleton] at hle
    have hself : ((hs.get ⟨i, hi⟩ == hs.get ⟨i, hi⟩)) = true := beq_iff_eq.mpr rfl
    rw [hself] at hle
    simpa using hle
  rcases mkHdr_eq_cases heq with ⟨hc, hd, hab⟩ | ⟨_, hd, hab⟩ | ⟨hc, _, hab⟩ | ⟨_, _, hab, hcd⟩
  · rw [← hab] at hd
    omega
  · exact H (hs.get ⟨i, hi⟩) hmem_i (hs.get ⟨j, hj⟩) hmem_j _ (by omega) hab
  · exact H (hs.get ⟨j, hj⟩) hmem_j (hs.get ⟨i, hi⟩) hmem_i _ (by omega) hab
  · rw [← hab] at hcd
    omega

/-- The header list produced by the dedup pass has no duplicates, provided no
input header is itself another input header extended by `_k`, `k ≥ 2`. -/
theorem uniqueHeaders_nodup (hs : List String)
    (H : ∀ g ∈ hs, ∀ g2 ∈ hs, ∀ k, 2 ≤ k → g ≠ g2 ++ "_" ++ decStr k) :
    (uniqueHeaders hs).Nodup := by
  rw [List.nodup_iff_injective_get]
  intro i j hij
  have hi : (i : Nat) < hs.length :=
    lt_of_lt_of_eq i.isLt (uniqueHeadersAux_length hs fun _ => 0)
  have hj : (j : Nat) < hs.length :=
    lt_of_lt_of_eq j.isLt (uniqueHeadersAux_length hs fun _ => 0)
  have hchar : ∀ (m : Nat) (hm : m < hs.length)
      (hm2 : m < (uniqueHeaders hs).length),
      (uniqueHeaders hs).get ⟨m, hm2⟩
        = mkHdr (hs.get ⟨m, hm⟩) ((hs.take m).count (hs.get ⟨m, hm⟩)) := by
    intro m hm hm2
    have hg := uniqueHeadersAux_get hs (fun _ => 0) m hm hm2
    simpa [uniqueHeaders] using hg
  have heq : mkHdr (hs.get ⟨(i : Nat), hi⟩) ((hs.take i).count (hs.get ⟨(i : Nat), hi⟩))
      = mkHdr (hs.get ⟨(j : Nat), hj⟩) ((hs.take j).count (hs.get ⟨(j : Nat), hj⟩)) := by
    rw [← hchar i hi i.isLt, ← hchar j hj j.isLt]
    simpa using hij
  rcases Nat.lt_trichotomy (i : Nat) (j : Nat) with h | h | h
  · exact absurd heq (fun hq => uniqueHeaders_key hs H i j hi hj h hq)
  · exact Fin.ext h
  · exact absurd heq.symm (fun hq => uniqueHeaders_key hs H j i hj hi h hq)

/-- C1 counterexample: for the input headers `["Name","Name_2","Name"]` the
cleaning pass emits `["Name","Name_2","Name_2"]` — the suffix generated for
the second `Name` collides with the pre-existing `Name_2` — so the cleaned
table has duplicate headers even though the input headers were non-empty. -/
theorem c1_dedup_collision :
    (validate_table_structure
        { headers := ["Name", "Name_2", "Name"],
          data := [[("Name", "x")]] }).cleaned_table
      = some { headers := ["Name", "Name_2", "Name_2"], data := [[("Name", "x")]] }
    ∧ ¬ (["Name", "Name_2", "Name_2"] : List String).Nodup := by
  decide

/-- C1 (amended): for every table with data and a non-empty headers list in
which no header is another header extended by an underscore and a numeral
`k ≥ 2`, the cleaned table exists and its headers are pairwise distinct
(`len(headers) == len(set(headers))`), with the same number of headers as
the input. -/
theorem c1_cleaned_headers_nodup (t : TableV) (hdata : t.data ≠ [])
    (hne : t.headers ≠ [])
    (H : ∀ g ∈ t.headers, ∀ g2 ∈ t.headers, ∀ k, 2 ≤ k → g ≠ g2 ++ "_" ++ decStr k) :
    ∃ ct, (validate_table_structure t).cleaned_table = some ct
      ∧ ct.headers.Nodup ∧ ct.headers.length = t.headers.length := by
  refine ⟨{ t with headers := uniqueHeaders t.headers }, ?_, ?_, ?_⟩
  · unfold validate_table_structure
    rw [if_neg hdata]
    show some (if t.headers = [] then t else { t with headers := uniqueHeaders t.headers })
        = some { t with headers := uniqueHeaders t.headers }
    rw [if_neg hne]
  · exact uniqueHeaders_nodup t.headers H
  · exact uniqueHeadersAux_length t.headers _

/-- C1 witness: the amended theorem applied to the duplicate-header table
`["Name","Name"]` (cleaned to `["Name","Name_2"]`). -/
theorem c1_cleaned_headers_nodup_witness :
    ∃ ct, (validate_table_structure
        { headers := ["Name", "Name"], data := [[("Name", "x")]] }).cleaned_table
        = some ct
      ∧ ct.headers.Nodup
      ∧ ct.headers.length = (["Name", "Name"] : List String).length := by
  apply c1_cleaned_headers_nodup
  · decide
  · decide
  · intro g hg g2 hg2 k hk
    have hg' : g = "Name" := by simpa using hg
    have hg2' : g2 = "Name" := by simpa using hg2
    rw [hg', hg2']
    exact ne_append_underscore_decStr "Name" "Name" k (le_refl _)

end BuntingAgents
